import Mathlib

/-!
# Verification of the ceratora image-processing core

Shallow embedding of the `ImageProcessor` pipeline found in the repository
(`src/unnamed/part_005`, two variants: a jSquash-codec based one and an
`OffscreenCanvas.convertToBlob` based one, plus `src/lib/imageProcessor.ts`).

Modelling conventions:
* JS numbers are modelled by `ℚ` where fractional arithmetic occurs
  (dimension computation), and by `ℕ` for integer-only quantities
  (qualities, byte sizes, channel values).  All dimension divisions in the
  source involve small integers, so exact rational arithmetic is faithful.
* `Math.round x` is `⌊x + 1/2⌋` (exact for every JS input, including
  `Math.round (-0.5) = -0`).
* An encode call (`encodeImageData` / `convertToBlob`) is abstracted to an
  oracle `ℕ → Option β`: `some blob` is a resolved promise, `none` a
  rejected one (an exception).  Blobs are abstract `β` with a byte-size
  function; exceptions propagate as `Except.error ()`.
* `ImageData.data` is a `Uint8ClampedArray`; a store of a value above 255
  clamps to 255.  Pixels are RGBA quadruples.
* `processImages` abstracts the per-file `processImage` to an outcome list
  (`some record` = success, `none` = the file threw and was caught), and the
  `AbortSignal` to the boolean value read at the check before file `i`.
  It returns the result list together with the list of first arguments
  passed to `onProgress` (the second argument is the constant
  `files.length`).
-/

/-- JS `Math.round` on a rational: `⌊x + 1/2⌋` (round half up, which is
exactly `Math.round` for every input). -/
def jsRound (x : ℚ) : ℤ := ⌊x + 1/2⌋

/-- JS truthiness of an optional numeric options field
(`maxWidth`, `maxHeight`): `undefined` and `0` are falsy. -/
def truthy : Option ℕ → Bool
  | none => false
  | some n => n != 0

/-- The `maintainAspectRatio = true` branch of
`ImageProcessor.calculateDimensions`, identical (token for token) in all
three source variants: guards are JS-truthiness tests, the second clamp in
the both-bounds case tests the already-adjusted height, and `ratio` is
computed from the original dimensions. -/
def aspectBranch (srcW srcH : ℕ) (maxW maxH : Option ℕ) : ℚ × ℚ :=
  let rq : ℚ := (srcW : ℚ) / (srcH : ℚ)
  if truthy maxW && truthy maxH then
    let mW : ℚ := ((maxW.getD 0 : ℕ) : ℚ)
    let mH : ℚ := ((maxH.getD 0 : ℕ) : ℚ)
    let s1 : ℚ × ℚ := if mW < (srcW : ℚ) then (mW, mW / rq) else ((srcW : ℚ), (srcH : ℚ))
    if mH < s1.2 then (mH * rq, mH) else s1
  else if truthy maxW then
    let mW : ℚ := ((maxW.getD 0 : ℕ) : ℚ)
    if mW < (srcW : ℚ) then (mW, mW / rq) else ((srcW : ℚ), (srcH : ℚ))
  else if truthy maxH then
    let mH : ℚ := ((maxH.getD 0 : ℕ) : ℚ)
    if mH < (srcH : ℚ) then (mH * rq, mH) else ((srcW : ℚ), (srcH : ℚ))
  else ((srcW : ℚ), (srcH : ℚ))

/-- The supported format union of the jSquash variant
(`"webp" | "png" | "jpeg" | "avif"`). -/
inductive SupportedFormat
  | webp
  | png
  | jpeg
  | avif
deriving DecidableEq

/-- The format union of the OffscreenCanvas variant
(`"webp" | "png" | "jpeg"`). -/
inductive OffFormat
  | webp
  | png
  | jpeg
deriving DecidableEq

/-- The binary-search loop shared verbatim by both `compressToSize`
variants (`for (attempts = 0; attempts < 12 && maxQ - minQuality > 2; ...)`
resp. `while (attempts < maxAttempts && maxQuality - minQuality > 2)`).
`fuel` is the remaining attempt budget (initially 12), `encode q` the
outcome of the encode call at integer quality `q` (`none` = the promise
rejected), `bsize` the blob byte size.  Returns the pair
`(best, minQuality)` at loop exit (or the propagated exception) together
with the number of encode calls made. -/
def fitLoop {β : Type} (encode : ℕ → Option β) (bsize : β → ℕ) (targetSize : ℕ) :
    ℕ → ℕ → ℕ → Option (ℕ × β) → Except Unit (Option (ℕ × β) × ℕ) × ℕ
  | 0, minQ, _maxQ, best => (Except.ok (best, minQ), 0)
  | fuel + 1, minQ, maxQ, best =>
    if 2 < maxQ - minQ then
      let mid := (minQ + maxQ + 1) / 2
      match encode mid with
      | none => (Except.error (), 1)
      | some blob =>
        let next :=
          if bsize blob ≤ targetSize then
            fitLoop encode bsize targetSize fuel mid maxQ (some (mid, blob))
          else
            fitLoop encode bsize targetSize fuel minQ mid best
        (next.1, next.2 + 1)
    else (Except.ok (best, minQ), 0)

namespace Jsquash

/-- The line `const maxQuality = format === "avif" ? 90 : 95;` of the jSquash
variant's `compressToSize`. -/
def maxQuality : SupportedFormat → ℕ
  | .avif => 90
  | _ => 95

/-- Embeds `ImageProcessor.compressToSize` of the jSquash variant
(src/unnamed/part_005, first document, lines 218-265): PNG bypass, then the
bounded binary search from `minQuality = 10` up to `maxQuality`, falling
back to an encode at `minQuality` when no candidate ever fit.
`encodePngResult` is the outcome of `encodePng(imageData)`.  The second
component counts encode calls. -/
def compressToSize {β : Type} (encode : ℕ → Option β) (bsize : β → ℕ)
    (encodePngResult : Option β) (format : SupportedFormat) (targetSize : ℕ) :
    Except Unit (β × ℕ) × ℕ :=
  if format = .png then
    match encodePngResult with
    | none => (Except.error (), 1)
    | some blob => (Except.ok (blob, 100), 1)
  else
    match fitLoop encode bsize targetSize 12 10 (maxQuality format) none with
    | (Except.error e, n) => (Except.error e, n)
    | (Except.ok (some (q, blob), _), n) => (Except.ok (blob, q), n)
    | (Except.ok (none, minQ), n) =>
      match encode minQ with
      | none => (Except.error (), n + 1)
      | some blob => (Except.ok (blob, minQ), n + 1)

/-- Embeds `ImageProcessor.calculateDimensions` of the jSquash variant
(src/unnamed/part_005, first document, lines 294-335).  The
`maintainAspectRatio = false` branch uses nullish coalescing
(`maxWidth ?? width`), so a present-but-zero bound is used there. -/
def calculateDimensions (srcW srcH : ℕ) (maxW maxH : Option ℕ)
    (maintainAspect : Bool) : ℤ × ℤ :=
  if !truthy maxW && !truthy maxH then ((srcW : ℤ), (srcH : ℤ))
  else if maintainAspect then
    let p := aspectBranch srcW srcH maxW maxH
    (jsRound p.1, jsRound p.2)
  else
    (jsRound ((maxW.getD srcW : ℕ) : ℚ), jsRound ((maxH.getD srcH : ℕ) : ℚ))

end Jsquash

namespace Offscreen

/-- The line `let maxQuality = format === "webp" ? 95 : 98;` of the OffscreenCanvas
variant's `compressToSize`. -/
def maxQuality : OffFormat → ℕ
  | .webp => 95
  | _ => 98

/-- Embeds `ImageProcessor.compressToSize` of the OffscreenCanvas variant
(src/unnamed/part_005, second document, lines 574-611): no PNG bypass,
search from 10 to `maxQuality`, fallback at `minQuality`.
`convertToBlob q` is the outcome of `this.convertToBlob(canvas, format, q)`
(`none` = it threw, which it does on a null or zero-length blob). -/
def compressToSize {β : Type} (convertToBlob : ℕ → Option β) (bsize : β → ℕ)
    (format : OffFormat) (targetSize : ℕ) : Except Unit (β × ℕ) × ℕ :=
  match fitLoop convertToBlob bsize targetSize 12 10 (maxQuality format) none with
  | (Except.error e, n) => (Except.error e, n)
  | (Except.ok (some (q, blob), _), n) => (Except.ok (blob, q), n)
  | (Except.ok (none, minQ), n) =>
    match convertToBlob minQ with
    | none => (Except.error (), n + 1)
    | some blob => (Except.ok (blob, minQ), n + 1)

end Offscreen

namespace LibProcessor

/-- Embeds `ImageProcessor.calculateDimensions` of src/lib/imageProcessor.ts
(lines 187-230).  Identical to the jSquash variant except that the
`maintainAspectRatio = false` branch uses `maxWidth || width`
(falsy coalescing), so a zero bound falls back to the source value. -/
def calculateDimensions (srcW srcH : ℕ) (maxW maxH : Option ℕ)
    (maintainAspect : Bool) : ℤ × ℤ :=
  if !truthy maxW && !truthy maxH then ((srcW : ℤ), (srcH : ℤ))
  else if maintainAspect then
    let p := aspectBranch srcW srcH maxW maxH
    (jsRound p.1, jsRound p.2)
  else
    (jsRound ((if truthy maxW then maxW.getD 0 else srcW : ℕ) : ℚ),
     jsRound ((if truthy maxH then maxH.getD 0 else srcH : ℕ) : ℚ))

end LibProcessor

/-- Spec §4.1, written from the spec's words for comparison with the code:
with both bounds given and `keepAspect = true`, "first clamp width to maxW
(scaling height via ratio) IF srcW > maxW, then — using the
*already-adjusted* height — clamp height to maxH (scaling width via ratio)
IF height > maxH", output rounded to nearest integer pixel. -/
def specTwoStepClamp (srcW srcH maxW maxH : ℕ) : ℤ × ℤ :=
  let rq : ℚ := (srcW : ℚ) / (srcH : ℚ)
  let s1 : ℚ × ℚ :=
    if (maxW : ℚ) < (srcW : ℚ) then ((maxW : ℚ), (maxW : ℚ) / rq)
    else ((srcW : ℚ), (srcH : ℚ))
  let s2 : ℚ × ℚ :=
    if (maxH : ℚ) < s1.2 then ((maxH : ℚ) * rq, (maxH : ℚ)) else s1
  (jsRound s2.1, jsRound s2.2)

/-- The quality → palette-size thresholds of `compressPNG`
(src/lib/imageProcessor.ts lines 321-332) and `compressPNGOffscreen`
(src/unnamed/part_005, second document, lines 552-557); `quality` is the
0.0–1.0 normalized quality. -/
def colorDepth (quality : ℚ) : ℕ :=
  if 9/10 ≤ quality then 256
  else if 7/10 ≤ quality then 128
  else if 1/2 ≤ quality then 64
  else if 3/10 ≤ quality then 32
  else 16

/-- The line `const step = Math.floor(256 / colorDepth);`. -/
def quantStep (quality : ℚ) : ℕ := 256 / colorDepth quality

/-- Computes `Math.round(c / step)` for channel byte `c` and step `step`:
`⌊c/step + 1/2⌋ = (2c + step) / (2 step)` (exact — every step used is a
power of two, so the JS float division is exact as well). -/
def jsRoundDiv (c step : ℕ) : ℕ := (2 * c + step) / (2 * step)

/-- One channel store `data[i] = Math.round(data[i] / step) * step` into a
`Uint8ClampedArray`: values above 255 clamp to 255. -/
def quantChannel (step c : ℕ) : ℕ := min 255 (jsRoundDiv c step * step)

/-- An RGBA pixel of `ImageData.data`. -/
structure Pixel where
  r : ℕ
  g : ℕ
  b : ℕ
  a : ℕ
deriving DecidableEq

/-- The per-pixel body of the quantization loop: R, G, B quantized,
alpha left as is. -/
def quantizePixel (step : ℕ) (p : Pixel) : Pixel :=
  ⟨quantChannel step p.r, quantChannel step p.g, quantChannel step p.b, p.a⟩

/-- The pixel-buffer transformation performed by `compressPNG` /
`compressPNGOffscreen` before re-encoding: every pixel's R, G, B channels
quantized with the step derived from `quality`, alpha untouched. -/
def compressPNGQuantize (quality : ℚ) (buf : List Pixel) : List Pixel :=
  buf.map (quantizePixel (quantStep quality))

/-- The file loop of `ImageProcessor.processImages`
(src/unnamed/part_005 lines 279-289 / 625-636; the src/lib variant is the
same loop without the abort check, i.e. `abort = fun _ => false`).
`files` holds each file's `processImage` outcome (`none` = it threw and
was caught), `abort i` the value of `signal?.aborted` read before file `i`,
`i` the current index.  Returns the pushed results and the list of first
arguments passed to `onProgress` (the source passes `(i + 1, files.length)`
after pushing a result). -/
def processImagesGo {α : Type} (abort : ℕ → Bool) : List (Option α) → ℕ → List α × List ℕ
  | [], _ => ([], [])
  | f :: rest, i =>
    if abort i then ([], [])
    else
      match f with
      | some r =>
        let t := processImagesGo abort rest (i + 1)
        (r :: t.1, (i + 1) :: t.2)
      | none => processImagesGo abort rest (i + 1)

/-- Embeds `ImageProcessor.processImages`: run the loop from index 0. -/
def processImages {α : Type} (files : List (Option α)) (abort : ℕ → Bool) :
    List α × List ℕ :=
  processImagesGo abort files 0

/-- The progress first-arguments the loop actually produces: for each
successful file, its input index plus one (a characterisation used by the
amended batch-ordering claim). -/
def progressSpec {α : Type} : List (Option α) → ℕ → List ℕ
  | [], _ => []
  | some _ :: rest, i => (i + 1) :: progressSpec rest (i + 1)
  | none :: rest, i => progressSpec rest (i + 1)

/-- Worst-case iteration count of the fitting loop on a window `w`:
both branches shrink the window to at most `(w + 1) / 2`. -/
def halveCount : ℕ → ℕ → ℕ
  | 0, _ => 0
  | fuel + 1, w => if 2 < w then halveCount fuel ((w + 1) / 2) + 1 else 0

-- ── Batch-loop lemmas ─────────────────────────────────────────────────────────

theorem processImagesGo_no_abort {α : Type} (files : List (Option α)) (i : ℕ) :
    processImagesGo (fun _ => false) files i = (files.filterMap id, progressSpec files i) := by
  induction files generalizing i with
  | nil => rfl
  | cons f rest ih =>
    cases f <;> simp [processImagesGo, progressSpec, List.filterMap_cons, ih]

theorem progressSpec_lt {α : Type} (files : List (Option α)) (i : ℕ) :
    ∀ x ∈ progressSpec files i, i < x := by
  induction files generalizing i with
  | nil => simp [progressSpec]
  | cons f rest ih =>
    cases f with
    | none =>
      intro x hx
      have := ih (i + 1) x (by simpa [progressSpec] using hx)
      omega
    | some r =>
      intro x hx
      simp only [progressSpec, List.mem_cons] at hx
      rcases hx with rfl | hx
      · omega
      · have := ih (i + 1) x hx
        omega

theorem progressSpec_sorted {α : Type} (files : List (Option α)) (i : ℕ) :
    List.Sorted (· < ·) (progressSpec files i) := by
  induction files generalizing i with
  | nil => simp [progressSpec]
  | cons f rest ih =>
    cases f with
    | none => simpa [progressSpec] using ih (i + 1)
    | some r =>
      refine List.sorted_cons.mpr ⟨?_, ih (i + 1)⟩
      intro b hb
      exact progressSpec_lt rest (i + 1) b hb

theorem progressSpec_length {α : Type} (files : List (Option α)) (i : ℕ) :
    (progressSpec files i).length = (files.filterMap id).length := by
  induction files generalizing i with
  | nil => rfl
  | cons f rest ih =>
    cases f <;> simp [progressSpec, List.filterMap_cons, ih]

/-- C1 (amended): for a batch with failing files and no cancellation,
`processImages` returns one record per successfully processed file in
input order (`files.filterMap id`), and `onProgress` is invoked exactly
once per successful file with strictly increasing first argument — but
that first argument is the file's input index plus one (`progressSpec`),
not the count of completions so far, so its values can skip numbers. -/
theorem processImages_order_progress {α : Type} (files : List (Option α)) :
    (processImages files (fun _ => false)).1 = files.filterMap id
    ∧ (processImages files (fun _ => false)).2 = progressSpec files 0
    ∧ List.Sorted (· < ·) (processImages files (fun _ => false)).2
    ∧ (processImages files (fun _ => false)).2.length = (files.filterMap id).length := by
  have h := processImagesGo_no_abort files 0
  refine ⟨?_, ?_, ?_, ?_⟩
  · simp [processImages, h]
  · simp [processImages, h]
  · simp only [processImages, h]
    exact progressSpec_sorted files 0
  · simp only [processImages, h]
    exact progressSpec_length files 0

/-- C1 counterexample: for 5 files where file 3 (1-indexed) fails, the
first arguments passed to `onProgress` are `[1, 2, 4, 5]` — the input
indices plus one — and not the claimed completion counts `[1, 2, 3, 4]`,
even though the four records are returned in input order. -/
theorem processImages_progress_counterexample :
    (processImages [some 10, some 20, none, some 30, some 40] (fun _ => false)).2 = [1, 2, 4, 5]
    ∧ (processImages [some 10, some 20, none, some 30, some 40] (fun _ => false)).1 = [10, 20, 30, 40]
    ∧ ([1, 2, 4, 5] : List ℕ) ≠ [1, 2, 3, 4] :=
  ⟨rfl, rfl, by decide⟩

theorem processImagesGo_cancel {α : Type} (abort : ℕ → Bool) :
    ∀ (k : ℕ) (files : List (Option α)) (i : ℕ),
      (∀ j, j < k → abort (i + j) = false) → abort (i + k) = true →
      (∀ j, j < k → (files.getD j none).isSome) → k ≤ files.length →
      (processImagesGo abort files i).1.length = k
      ∧ (processImagesGo abort files i).2 = (List.range k).map (fun j => i + j + 1) := by
  intro k
  induction k with
  | zero =>
    intro files i _ hk _ _
    have hi : abort i = true := by simpa using hk
    cases files with
    | nil => simp [processImagesGo]
    | cons f rest => simp [processImagesGo, hi]
  | succ k ih =>
    intro files i hlt hk hsucc hlen
    cases files with
    | nil => simp at hlen
    | cons f rest =>
      have hi : abort i = false := by simpa using hlt 0 (by omega)
      have hf : f.isSome := by simpa using hsucc 0 (by omega)
      obtain ⟨r, rfl⟩ := Option.isSome_iff_exists.mp hf
      have ih' := ih rest (i + 1)
        (fun j hj => by
          have := hlt (j + 1) (by omega)
          simpa [show i + (j + 1) = i + 1 + j by omega] using this)
        (by simpa [show i + (k + 1) = i + 1 + k by omega] using hk)
        (fun j hj => by
          have := hsucc (j + 1) (by omega)
          simpa using this)
        (by simpa using Nat.lt_succ_iff.mp (Nat.lt_succ_of_le hlen) |>.trans_eq rfl)
      constructor
      · simp [processImagesGo, hi, ih'.1]
      · simp only [processImagesGo, hi, Bool.false_eq_true, if_false, ih'.2]
        rw [List.range_succ_eq_map]
        simp only [List.map_cons, List.map_map]
        refine congrArg₂ _ (by omega) ?_
        refine congrArg₂ _ ?_ rfl
        funext j
        simp only [Function.comp]
        omega

/-- C7: cancellation is observed only at the start of each file iteration:
if the abort flag reads false before each of the first `k` files, those
files succeed, and it reads true at the check before file `k+1`, then the
batch returns exactly `k` records and exactly `k` progress callbacks
(`1..k`) occur — no further file is processed after the flag is seen,
and a file whose check read false always completes (its record and
progress call are included). -/
theorem processImages_cancellation {α : Type} (files : List (Option α)) (abort : ℕ → Bool)
    (k : ℕ) (h1 : ∀ j, j < k → abort j = false) (h2 : abort k = true)
    (h3 : ∀ j, j < k → (files.getD j none).isSome) (h4 : k ≤ files.length) :
    (processImages files abort).1.length = k
    ∧ (processImages files abort).2 = (List.range k).map (fun j => j + 1) := by
  have h := processImagesGo_cancel abort k files 0 (by simpa using h1) (by simpa using h2) h3 h4
  simpa using h

/-- Witness for the cancellation theorem: 5 successful files, the abort
flag becomes true at the check before file 3 (index 2): exactly 2 records
and progress calls `[1, 2]`. -/
theorem processImages_cancellation_witness :
    (processImages [some 1, some 2, some 3, some 4, some 5] (fun i => decide (2 ≤ i))).1.length = 2
    ∧ (processImages [some 1, some 2, some 3, some 4, some 5] (fun i => decide (2 ≤ i))).2
      = (List.range 2).map (fun j => j + 1) :=
  processImages_cancellation [some 1, some 2, some 3, some 4, some 5] (fun i => decide (2 ≤ i)) 2
    (by decide) (by decide) (by decide) (by decide)

/-- C8: for format png, the jSquash `compressToSize` bypasses the search
entirely: it returns the plain lossless `encodePng` result with applied
quality 100, makes exactly one encode call, and its result does not depend
on `targetSize`. -/
theorem compressToSize_png_bypass {β : Type} (encode : ℕ → Option β) (bsize : β → ℕ)
    (pngBlob : β) (t t' : ℕ) :
    (Jsquash.compressToSize encode bsize (some pngBlob) .png t).1 = Except.ok (pngBlob, 100)
    ∧ (Jsquash.compressToSize encode bsize (some pngBlob) .png t).2 = 1
    ∧ Jsquash.compressToSize encode bsize (some pngBlob) .png t
      = Jsquash.compressToSize encode bsize (some pngBlob) .png t' := by
  simp [Jsquash.compressToSize]

-- ── Fitting-loop lemmas ───────────────────────────────────────────────────────

theorem fitLoop_calls_le_fuel {β : Type} (encode : ℕ → Option β) (bsize : β → ℕ) (t : ℕ) :
    ∀ (fuel minQ maxQ : ℕ) (best : Option (ℕ × β)),
      (fitLoop encode bsize t fuel minQ maxQ best).2 ≤ fuel := by
  intro fuel
  induction fuel with
  | zero => intro minQ maxQ best; simp [fitLoop]
  | succ n ih =>
    intro minQ maxQ best
    simp only [fitLoop]
    split
    · cases h : encode ((minQ + maxQ + 1) / 2) with
      | none => simp
      | some blob =>
        simp only []
        split
        · have := ih ((minQ + maxQ + 1) / 2) maxQ (some ((minQ + maxQ + 1) / 2, blob))
          omega
        · have := ih minQ ((minQ + maxQ + 1) / 2) best
          omega
    · simp

theorem fitLoop_best_some {β : Type} (encode : ℕ → Option β) (bsize : β → ℕ) (t : ℕ) :
    ∀ (fuel minQ maxQ : ℕ) (p : ℕ × β) (res : Option (ℕ × β)) (m : ℕ),
      (fitLoop encode bsize t fuel minQ maxQ (some p)).1 = Except.ok (res, m) → res.isSome := by
  intro fuel
  induction fuel with
  | zero =>
    intro minQ maxQ p res m h
    simp only [fitLoop, Except.ok.injEq, Prod.mk.injEq] at h
    rw [← h.1]
    rfl
  | succ n ih =>
    intro minQ maxQ p res m h
    simp only [fitLoop] at h
    split at h
    · cases henc : encode ((minQ + maxQ + 1) / 2) with
      | none => rw [henc] at h; simp at h
      | some blob =>
        rw [henc] at h
        simp only [] at h
        split at h
        · exact ih _ _ _ _ _ h
        · exact ih _ _ _ _ _ h
    · simp only [Except.ok.injEq, Prod.mk.injEq] at h
      rw [← h.1]
      rfl

theorem fitLoop_none_calls {β : Type} (encode : ℕ → Option β) (bsize : β → ℕ) (t : ℕ) :
    ∀ (fuel minQ maxQ m : ℕ),
      (fitLoop encode bsize t fuel minQ maxQ none).1 = Except.ok (none, m) →
      (fitLoop encode bsize t fuel minQ maxQ none).2 ≤ halveCount fuel (maxQ - minQ) := by
  intro fuel
  induction fuel with
  | zero => intro minQ maxQ m _; simp [fitLoop]
  | succ n ih =>
    intro minQ maxQ m h
    by_cases hw : 2 < maxQ - minQ
    · rw [fitLoop] at h ⊢
      rw [if_pos hw] at h ⊢
      cases henc : encode ((minQ + maxQ + 1) / 2) with
      | none => simp [henc] at h
      | some blob =>
        simp only [henc] at h ⊢
        by_cases hfit : bsize blob ≤ t
        · simp only [if_pos hfit] at h
          have := fitLoop_best_some encode bsize t n _ _ _ _ _ h
          simp at this
        · simp only [if_neg hfit] at h ⊢
          have hrec := ih minQ ((minQ + maxQ + 1) / 2) m h
          have hwin : (minQ + maxQ + 1) / 2 - minQ = (maxQ - minQ + 1) / 2 := by omega
          rw [halveCount, if_pos hw]
          rw [hwin] at hrec
          omega
    · rw [fitLoop] at h ⊢
      rw [if_neg hw] at h ⊢
      simp [halveCount]

theorem fitLoop_all_exceed {β : Type} (encode : ℕ → Option β) (bsize : β → ℕ) (t : ℕ)
    (hsome : ∀ q, (encode q).isSome) (hbig : ∀ q b, encode q = some b → t < bsize b) :
    ∀ (fuel minQ maxQ : ℕ),
      (fitLoop encode bsize t fuel minQ maxQ none).1 = Except.ok (none, minQ) := by
  intro fuel
  induction fuel with
  | zero => intro minQ maxQ; rfl
  | succ n ih =>
    intro minQ maxQ
    rw [fitLoop]
    by_cases hw : 2 < maxQ - minQ
    · rw [if_pos hw]
      obtain ⟨b, hb⟩ := Option.isSome_iff_exists.mp (hsome ((minQ + maxQ + 1) / 2))
      simp only [hb]
      rw [if_neg (by have := hbig _ b hb; omega)]
      exact ih minQ ((minQ + maxQ + 1) / 2)
    · rw [if_neg hw]

theorem fitLoop_step_fail {β : Type} (encode : ℕ → Option β) (bsize : β → ℕ)
    (t fuel minQ maxQ : ℕ) (best : Option (ℕ × β)) (hw : 2 < maxQ - minQ)
    (hfail : encode ((minQ + maxQ + 1) / 2) = none) :
    fitLoop encode bsize t (fuel + 1) minQ maxQ best = (Except.error (), 1) := by
  rw [fitLoop, if_pos hw]
  simp [hfail]

/-- C2 (amended): the size-fitting search keeps `lo = 10`, probes
`mid = round((lo+hi)/2)`, moves `lo` up on a fit and `hi` down otherwise,
loops only while `hi - lo > 2` and fewer than 12 attempts were made, always
terminates, and performs at most 12 encode calls (including the
minimum-quality fallback encode) — but the initial ceiling is 90 for avif
and 95 for webp AND jpeg in the jSquash variant, and 95 for webp / 98
otherwise in the OffscreenCanvas variant (not "95 for webp, 98 otherwise"
across the board). -/
theorem compressToSize_encode_call_bound :
    (Jsquash.maxQuality .webp = 95 ∧ Jsquash.maxQuality .jpeg = 95 ∧ Jsquash.maxQuality .avif = 90)
    ∧ (Offscreen.maxQuality .webp = 95 ∧ Offscreen.maxQuality .jpeg = 98)
    ∧ (∀ (β : Type) (encode : ℕ → Option β) (bsize : β → ℕ) (png : Option β)
        (fmt : SupportedFormat) (t : ℕ), fmt ≠ .png →
        (Jsquash.compressToSize encode bsize png fmt t).2 ≤ 12)
    ∧ (∀ (β : Type) (conv : ℕ → Option β) (bsize : β → ℕ) (fmt : OffFormat) (t : ℕ),
        (Offscreen.compressToSize conv bsize fmt t).2 ≤ 12) := by
  refine ⟨⟨rfl, rfl, rfl⟩, ⟨rfl, rfl⟩, ?_, ?_⟩
  · intro β encode bsize png fmt t hfmt
    unfold Jsquash.compressToSize
    rw [if_neg hfmt]
    rcases hfit : fitLoop encode bsize t 12 10 (Jsquash.maxQuality fmt) none with ⟨res, n⟩
    have hn : n ≤ 12 := by
      have := fitLoop_calls_le_fuel encode bsize t 12 10 (Jsquash.maxQuality fmt) none
      rw [hfit] at this
      exact this
    cases res with
    | error e => simpa using hn
    | ok p =>
      rcases p with ⟨resOpt, minQ⟩
      cases resOpt with
      | some qb => rcases qb with ⟨q, blob⟩; simpa using hn
      | none =>
        have hres : (fitLoop encode bsize t 12 10 (Jsquash.maxQuality fmt) none).1
            = Except.ok (none, minQ) := by rw [hfit]
        have hcalls := fitLoop_none_calls encode bsize t 12 10 (Jsquash.maxQuality fmt) minQ hres
        rw [hfit] at hcalls
        have hhc : halveCount 12 (Jsquash.maxQuality fmt - 10) = 6 := by
          cases fmt <;> decide
        cases henc : encode minQ <;> simp [henc] <;> omega
  · intro β conv bsize fmt t
    unfold Offscreen.compressToSize
    rcases hfit : fitLoop conv bsize t 12 10 (Offscreen.maxQuality fmt) none with ⟨res, n⟩
    have hn : n ≤ 12 := by
      have := fitLoop_calls_le_fuel conv bsize t 12 10 (Offscreen.maxQuality fmt) none
      rw [hfit] at this
      exact this
    cases res with
    | error e => simpa using hn
    | ok p =>
      rcases p with ⟨resOpt, minQ⟩
      cases resOpt with
      | some qb => rcases qb with ⟨q, blob⟩; simpa using hn
      | none =>
        have hres : (fitLoop conv bsize t 12 10 (Offscreen.maxQuality fmt) none).1
            = Except.ok (none, minQ) := by rw [hfit]
        have hcalls := fitLoop_none_calls conv bsize t 12 10 (Offscreen.maxQuality fmt) minQ hres
        rw [hfit] at hcalls
        have hhc : halveCount 12 (Offscreen.maxQuality fmt - 10) = 6 := by
          cases fmt <;> decide
        cases henc : conv minQ <;> simp [henc] <;> omega

/-- Witness for the encode-call bound: a concrete oracle and format. -/
theorem compressToSize_encode_call_bound_witness :
    (Jsquash.compressToSize (fun q => some q) id none SupportedFormat.webp 0).2 ≤ 12 :=
  compressToSize_encode_call_bound.2.2.1 ℕ (fun q => some q) id none SupportedFormat.webp 0
    (by decide)

/-- C2 counterexample: the claim's ceiling "98 otherwise (non-webp)" is
wrong for the jSquash variant's jpeg: its ceiling is 95.  With the oracle
"encoded size = quality" and target 53, the code's jpeg search returns
quality 53, while the same loop started from the claimed ceiling 98 would
return quality 52. -/
theorem compressToSize_ceiling_counterexample :
    Jsquash.maxQuality SupportedFormat.jpeg = 95
    ∧ (Jsquash.compressToSize (fun q => some q) id none SupportedFormat.jpeg 53).1
      = Except.ok (53, 53)
    ∧ (fitLoop (fun q => some q) id 53 12 10 98 none).1 = Except.ok (some (52, 52), 52)
    ∧ (53 : ℕ) ≠ 52 :=
  ⟨rfl, rfl, rfl, by decide⟩

/-- C3: for a non-png format, when every encode succeeds but even the
smallest output exceeds the target, both `compressToSize` variants fall
back to encoding at the minimum quality 10, report applied quality 10,
and return that blob rather than throwing. -/
theorem compressToSize_unreachable_fallback :
    (∀ (β : Type) (encode : ℕ → Option β) (bsize : β → ℕ) (png : Option β)
        (fmt : SupportedFormat) (t : ℕ), fmt ≠ .png →
        (∀ q, (encode q).isSome) → (∀ q b, encode q = some b → t < bsize b) →
        ∃ blob, encode 10 = some blob
          ∧ (Jsquash.compressToSize encode bsize png fmt t).1 = Except.ok (blob, 10))
    ∧ (∀ (β : Type) (conv : ℕ → Option β) (bsize : β → ℕ) (fmt : OffFormat) (t : ℕ),
        fmt ≠ .png →
        (∀ q, (conv q).isSome) → (∀ q b, conv q = some b → t < bsize b) →
        ∃ blob, conv 10 = some blob
          ∧ (Offscreen.compressToSize conv bsize fmt t).1 = Except.ok (blob, 10)) := by
  constructor
  · intro β encode bsize png fmt t hfmt hsome hbig
    obtain ⟨b, hb⟩ := Option.isSome_iff_exists.mp (hsome 10)
    refine ⟨b, hb, ?_⟩
    unfold Jsquash.compressToSize
    rw [if_neg hfmt]
    have hl := fitLoop_all_exceed encode bsize t hsome hbig 12 10 (Jsquash.maxQuality fmt)
    rcases hfit : fitLoop encode bsize t 12 10 (Jsquash.maxQuality fmt) none with ⟨res, n⟩
    rw [hfit] at hl
    simp only at hl
    rw [hl]
    simp [hb]
  · intro β conv bsize fmt t hfmt hsome hbig
    obtain ⟨b, hb⟩ := Option.isSome_iff_exists.mp (hsome 10)
    refine ⟨b, hb, ?_⟩
    unfold Offscreen.compressToSize
    have hl := fitLoop_all_exceed conv bsize t hsome hbig 12 10 (Offscreen.maxQuality fmt)
    rcases hfit : fitLoop conv bsize t 12 10 (Offscreen.maxQuality fmt) none with ⟨res, n⟩
    rw [hfit] at hl
    simp only at hl
    rw [hl]
    simp [hb]

/-- Witness for the unreachable-target fallback: a constant oracle of size
1000 against target 5 in both variants. -/
theorem compressToSize_unreachable_fallback_witness :
    (∃ blob, (fun _ : ℕ => some (1000 : ℕ)) 10 = some blob
      ∧ (Jsquash.compressToSize (fun _ => some 1000) id none SupportedFormat.webp 5).1
        = Except.ok (blob, 10))
    ∧ (∃ blob, (fun _ : ℕ => some (1000 : ℕ)) 10 = some blob
      ∧ (Offscreen.compressToSize (fun _ => some 1000) id OffFormat.jpeg 5).1
        = Except.ok (blob, 10)) :=
  ⟨compressToSize_unreachable_fallback.1 ℕ (fun _ => some 1000) id none SupportedFormat.webp 5
      (by decide) (fun _ => rfl)
      (fun q b h => by simp only [Option.some.injEq] at h; subst h; decide),
   compressToSize_unreachable_fallback.2 ℕ (fun _ => some 1000) id OffFormat.jpeg 5
      (by decide) (fun _ => rfl)
      (fun q b h => by simp only [Option.some.injEq] at h; subst h; decide)⟩

/-- C4 (amended): there is no per-attempt error handling inside the
size-fitting search: as soon as one encode attempt fails (a rejected
promise — which the OffscreenCanvas variant's convertToBlob also raises
for a null or zero-length blob), the exception propagates and the whole
fit aborts, shown here for a failure at the first probed quality;
the file is then skipped by the batch loop.  The upper bound is not
pushed down and the search does not continue. -/
theorem compressToSize_encode_failure_aborts {β : Type} (encode : ℕ → Option β)
    (bsize : β → ℕ) (png : Option β) (fmt : SupportedFormat) (t : ℕ)
    (hfmt : fmt ≠ .png)
    (hfail : encode ((10 + Jsquash.maxQuality fmt + 1) / 2) = none) :
    (Jsquash.compressToSize encode bsize png fmt t).1 = Except.error () := by
  unfold Jsquash.compressToSize
  rw [if_neg hfmt]
  rw [show (12 : ℕ) = 11 + 1 from rfl]
  rw [fitLoop_step_fail encode bsize t 11 10 (Jsquash.maxQuality fmt) none
    (by cases fmt <;> first | exact absurd rfl hfmt | decide) hfail]

/-- Witness for the abort-on-failure theorem: an always-failing oracle. -/
theorem compressToSize_encode_failure_aborts_witness :
    (Jsquash.compressToSize (fun _ : ℕ => (none : Option ℕ)) id none SupportedFormat.webp 0).1
      = Except.error () :=
  compressToSize_encode_failure_aborts (fun _ => none) id none SupportedFormat.webp 0
    (by decide) rfl

/-- C4 counterexample: an oracle that fails only at quality 53 (the first
probed webp quality) while every other attempt would produce a 5-byte blob
fitting the 100-byte target: the whole fit nevertheless aborts with the
propagated exception, even though not every attempt fails. -/
theorem compressToSize_encode_failure_counterexample :
    (Jsquash.compressToSize (fun q => if q = 53 then none else some (5 : ℕ)) id none
      SupportedFormat.webp 100).1 = Except.error ()
    ∧ (fun q => if q = 53 then none else some (5 : ℕ)) 10 = some 5
    ∧ (5 : ℕ) ≤ 100 :=
  ⟨rfl, rfl, by decide⟩

-- ── Quantization lemmas ───────────────────────────────────────────────────────

theorem jsRoundDiv_mul (step m : ℕ) (h : 0 < step) : jsRoundDiv (m * step) step = m := by
  unfold jsRoundDiv
  have h2 : 2 * (m * step) + step = step * (2 * m + 1) := by ring
  have h3 : 2 * step = step * 2 := by ring
  rw [h2, h3, Nat.mul_div_mul_left _ _ h]
  omega

theorem quantChannel_idem (step : ℕ) (hpos : 0 < step)
    (h255 : quantChannel step 255 = 255) (c : ℕ) :
    quantChannel step (quantChannel step c) = quantChannel step c := by
  by_cases hle : jsRoundDiv c step * step ≤ 255
  · have hv : quantChannel step c = jsRoundDiv c step * step := by
      unfold quantChannel
      omega
    rw [hv]
    unfold quantChannel
    rw [jsRoundDiv_mul step _ hpos]
    exact min_eq_right hle
  · have hv : quantChannel step c = 255 := by
      unfold quantChannel
      omega
    rw [hv, h255]

theorem quantStep_mem (q : ℚ) :
    quantStep q = 1 ∨ quantStep q = 2 ∨ quantStep q = 4 ∨ quantStep q = 8 ∨ quantStep q = 16 := by
  unfold quantStep colorDepth
  split_ifs <;> norm_num

theorem quantChannel_255 (step : ℕ)
    (hs : step = 1 ∨ step = 2 ∨ step = 4 ∨ step = 8 ∨ step = 16) :
    quantChannel step 255 = 255 := by
  rcases hs with rfl | rfl | rfl | rfl | rfl <;> decide

theorem quantizePixel_idem (step : ℕ) (hpos : 0 < step)
    (h255 : quantChannel step 255 = 255) (p : Pixel) :
    quantizePixel step (quantizePixel step p) = quantizePixel step p := by
  unfold quantizePixel
  simp [quantChannel_idem step hpos h255]

/-- C9 (amended): the lossy-PNG quantization map is a deterministic pure
function; each R, G, B channel is set to the nearest multiple of
`step = ⌊256 / levels⌋` clamped into the byte range — that is, to
`min 255 (round(c / step) · step)`, which equals 255 rather than a
multiple of `step` whenever the nearest multiple would be 256 — the alpha
byte of every pixel is unchanged, and re-applying the map at the same
level is the identity on an already-quantized buffer (fixed point). -/
theorem quantize_idempotent_alpha :
    (∀ (q : ℚ) (buf : List Pixel),
      compressPNGQuantize q (compressPNGQuantize q buf) = compressPNGQuantize q buf)
    ∧ (∀ (q : ℚ) (buf : List Pixel),
      (compressPNGQuantize q buf).map Pixel.a = buf.map Pixel.a)
    ∧ (∀ (q : ℚ) (p : Pixel),
      (quantizePixel (quantStep q) p).r
        = min 255 (jsRoundDiv p.r (quantStep q) * quantStep q)) := by
  refine ⟨?_, ?_, ?_⟩
  · intro q buf
    have hs := quantStep_mem q
    have hpos : 0 < quantStep q := by rcases hs with h | h | h | h | h <;> omega
    have h255 := quantChannel_255 (quantStep q) hs
    induction buf with
    | nil => rfl
    | cons p rest ih =>
      unfold compressPNGQuantize at ih ⊢
      simp only [List.map_cons]
      rw [quantizePixel_idem (quantStep q) hpos h255 p, ih]
  · intro q buf
    unfold compressPNGQuantize
    rw [List.map_map]
    rfl
  · intro q p
    rfl

/-- C9 counterexample: at normalized quality 0.2 the step is 16 and a
channel byte 255 is left at 255 (the `Uint8ClampedArray` clamp of the
computed 256), which is not a multiple of 16 — so the map does not always
round a channel to the nearest multiple of the step. -/
theorem quantize_clamp_counterexample :
    quantStep (1/5) = 16
    ∧ compressPNGQuantize (1/5) [⟨255, 16, 0, 7⟩] = [⟨255, 16, 0, 7⟩]
    ∧ ¬ (16 ∣ 255) := by
  refine ⟨by norm_num [quantStep, colorDepth], ?_, by decide⟩
  norm_num [compressPNGQuantize, quantizePixel, quantChannel, quantStep, colorDepth, jsRoundDiv]

-- ── Dimension lemmas ──────────────────────────────────────────────────────────

theorem jsRound_natCast (n : ℕ) : jsRound (n : ℚ) = (n : ℤ) := by
  unfold jsRound
  rw [show ((n : ℚ) + 1/2) = ((n : ℤ) : ℚ) + 1/2 by push_cast; ring]
  rw [Int.floor_int_add]
  norm_num

theorem jsRound_le_natCast {x : ℚ} {m : ℕ} (h : x ≤ (m : ℚ)) : jsRound x ≤ (m : ℤ) := by
  have h2 : x + 1/2 ≤ (m : ℚ) + 1/2 := by linarith
  have h3 := Int.floor_mono h2
  rw [show ((m : ℚ) + 1/2) = ((m : ℤ) : ℚ) + 1/2 by push_cast; ring, Int.floor_int_add] at h3
  have h4 : ⌊(1/2 : ℚ)⌋ = 0 := by norm_num
  unfold jsRound
  omega

theorem height_clamp_width_le {sW sH mW mH : ℚ} (hsW : 0 < sW) (hsH : 0 < sH)
    (hcond : mH < mW / (sW / sH)) : mH * (sW / sH) ≤ mW := by
  rw [div_div_eq_mul_div, lt_div_iff₀ hsW] at hcond
  rw [← mul_div_assoc, div_le_iff₀ hsH]
  linarith

theorem height_clamp_width_le₂ {sW sH mW mH : ℚ} (hsW : 0 < sW) (hsH : 0 < sH)
    (hle : sW ≤ mW) (hcond : mH < sH) : mH * (sW / sH) ≤ mW := by
  rw [← mul_div_assoc, div_le_iff₀ hsH]
  nlinarith

theorem aspectBranch_both (srcW srcH maxW maxH : ℕ) (hmW : maxW ≠ 0) (hmH : maxH ≠ 0) :
    aspectBranch srcW srcH (some maxW) (some maxH)
      = (if (maxH : ℚ) <
            (if (maxW : ℚ) < (srcW : ℚ)
              then ((maxW : ℚ), (maxW : ℚ) / ((srcW : ℚ) / (srcH : ℚ)))
              else ((srcW : ℚ), (srcH : ℚ))).2
          then ((maxH : ℚ) * ((srcW : ℚ) / (srcH : ℚ)), (maxH : ℚ))
          else (if (maxW : ℚ) < (srcW : ℚ)
            then ((maxW : ℚ), (maxW : ℚ) / ((srcW : ℚ) / (srcH : ℚ)))
            else ((srcW : ℚ), (srcH : ℚ)))) := by
  simp [aspectBranch, truthy, hmW, hmH]

theorem aspectBranch_both_le (srcW srcH maxW maxH : ℕ)
    (hW : 0 < srcW) (hH : 0 < srcH) (hmW : 0 < maxW) (hmH : 0 < maxH) :
    (aspectBranch srcW srcH (some maxW) (some maxH)).1 ≤ (maxW : ℚ)
    ∧ (aspectBranch srcW srcH (some maxW) (some maxH)).2 ≤ (maxH : ℚ) := by
  have hWQ : (0 : ℚ) < (srcW : ℚ) := by exact_mod_cast hW
  have hHQ : (0 : ℚ) < (srcH : ℚ) := by exact_mod_cast hH
  rw [aspectBranch_both srcW srcH maxW maxH hmW.ne' hmH.ne']
  by_cases h1 : (maxW : ℚ) < (srcW : ℚ)
  · rw [if_pos h1]
    by_cases h2 : (maxH : ℚ) < ((maxW : ℚ), (maxW : ℚ) / ((srcW : ℚ) / (srcH : ℚ))).2
    · rw [if_pos h2]
      exact ⟨height_clamp_width_le hWQ hHQ h2, le_refl _⟩
    · rw [if_neg h2]
      exact ⟨le_refl _, not_lt.mp h2⟩
  · rw [if_neg h1]
    by_cases h2 : (maxH : ℚ) < ((srcW : ℚ), (srcH : ℚ)).2
    · rw [if_pos h2]
      exact ⟨height_clamp_width_le₂ hWQ hHQ (not_lt.mp h1) h2, le_refl _⟩
    · rw [if_neg h2]
      exact ⟨not_lt.mp h1, not_lt.mp h2⟩

theorem aspectBranch_widthOnly_le (srcW srcH maxW : ℕ) (hmW : 0 < maxW) :
    (aspectBranch srcW srcH (some maxW) none).1 ≤ (maxW : ℚ) := by
  by_cases h1 : (maxW : ℚ) < (srcW : ℚ)
  · simp [aspectBranch, truthy, hmW.ne', h1]
  · simp [aspectBranch, truthy, hmW.ne', h1]
    have h2 : srcW ≤ maxW := by exact_mod_cast not_lt.mp h1
    omega

theorem aspectBranch_heightOnly_le (srcW srcH maxH : ℕ) (hmH : 0 < maxH) :
    (aspectBranch srcW srcH none (some maxH)).2 ≤ (maxH : ℚ) := by
  by_cases h1 : (maxH : ℚ) < (srcH : ℚ)
  · simp [aspectBranch, truthy, hmH.ne', h1]
  · simp [aspectBranch, truthy, hmH.ne', h1]
    have h2 : srcH ≤ maxH := by exact_mod_cast not_lt.mp h1
    omega

/-- C5: for positive source dimensions and positive bounds with
`maintainAspectRatio = true`, `calculateDimensions` (both variants) is
exactly the spec's sequential two-step clamp (`specTwoStepClamp`,
width-first, second test on the already-adjusted height, ratio from the
original dimensions, output rounded to nearest integer), and it never
returns a dimension above the corresponding set bound — in the both-bounds
case and in each single-bound case. -/
theorem calculateDimensions_sequential_clamp_bounds
    (srcW srcH maxW maxH : ℕ) (hW : 0 < srcW) (hH : 0 < srcH)
    (hmW : 0 < maxW) (hmH : 0 < maxH) :
    Jsquash.calculateDimensions srcW srcH (some maxW) (some maxH) true
      = specTwoStepClamp srcW srcH maxW maxH
    ∧ LibProcessor.calculateDimensions srcW srcH (some maxW) (some maxH) true
      = specTwoStepClamp srcW srcH maxW maxH
    ∧ (Jsquash.calculateDimensions srcW srcH (some maxW) (some maxH) true).1 ≤ (maxW : ℤ)
    ∧ (Jsquash.calculateDimensions srcW srcH (some maxW) (some maxH) true).2 ≤ (maxH : ℤ)
    ∧ (Jsquash.calculateDimensions srcW srcH (some maxW) none true).1 ≤ (maxW : ℤ)
    ∧ (Jsquash.calculateDimensions srcW srcH none (some maxH) true).2 ≤ (maxH : ℤ) := by
  have hb := aspectBranch_both srcW srcH maxW maxH hmW.ne' hmH.ne'
  have hble := aspectBranch_both_le srcW srcH maxW maxH hW hH hmW hmH
  refine ⟨?_, ?_, ?_, ?_, ?_, ?_⟩
  · unfold Jsquash.calculateDimensions specTwoStepClamp
    simp [truthy, hmW.ne', hmH.ne', hb]
  · unfold LibProcessor.calculateDimensions specTwoStepClamp
    simp [truthy, hmW.ne', hmH.ne', hb]
  · unfold Jsquash.calculateDimensions
    simp only [truthy, hmW.ne', hmH.ne', bne_self_eq_false]
    simp [truthy, hmW.ne', hmH.ne']
    exact jsRound_le_natCast hble.1
  · unfold Jsquash.calculateDimensions
    simp [truthy, hmW.ne', hmH.ne']
    exact jsRound_le_natCast hble.2
  · unfold Jsquash.calculateDimensions
    simp [truthy, hmW.ne']
    exact jsRound_le_natCast (aspectBranch_widthOnly_le srcW srcH maxW hmW)
  · unfold Jsquash.calculateDimensions
    simp [truthy, hmH.ne']
    exact jsRound_le_natCast (aspectBranch_heightOnly_le srcW srcH maxH hmH)

/-- Witness for the sequential-clamp theorem at a concrete landscape image
constrained on both axes. -/
theorem calculateDimensions_sequential_clamp_bounds_witness :
    Jsquash.calculateDimensions 800 600 (some 300) (some 200) true
      = specTwoStepClamp 800 600 300 200 :=
  (calculateDimensions_sequential_clamp_bounds 800 600 300 200
    (by decide) (by decide) (by decide) (by decide)).1

theorem aspectBranch_within (srcW srcH : ℕ) (maxW maxH : Option ℕ)
    (hsatW : ∀ w, maxW = some w → srcW ≤ w) (hsatH : ∀ h, maxH = some h → srcH ≤ h) :
    aspectBranch srcW srcH maxW maxH = ((srcW : ℚ), (srcH : ℚ)) := by
  have hW : ∀ w, maxW = some w → w ≠ 0 → ¬ ((w : ℚ) < (srcW : ℚ)) := by
    intro w hw _
    rw [not_lt]
    exact_mod_cast hsatW w hw
  have hH : ∀ h, maxH = some h → h ≠ 0 → ¬ ((h : ℚ) < (srcH : ℚ)) := by
    intro h hh _
    rw [not_lt]
    exact_mod_cast hsatH h hh
  cases maxW with
  | none =>
    cases maxH with
    | none => simp [aspectBranch, truthy]
    | some mh =>
      by_cases hz : mh = 0
      · subst hz
        simp [aspectBranch, truthy]
      · simp [aspectBranch, truthy, hz, hH mh rfl hz]
  | some mw =>
    by_cases hzw : mw = 0
    · subst hzw
      cases maxH with
      | none => simp [aspectBranch, truthy]
      | some mh =>
        by_cases hz : mh = 0
        · subst hz
          simp [aspectBranch, truthy]
        · simp [aspectBranch, truthy, hz, hH mh rfl hz]
    · cases maxH with
      | none => simp [aspectBranch, truthy, hzw, hW mw rfl hzw]
      | some mh =>
        by_cases hz : mh = 0
        · subst hz
          simp [aspectBranch, truthy, hzw, hW mw rfl hzw]
        · simp [aspectBranch, truthy, hzw, hz, hW mw rfl hzw, hH mh rfl hz]

/-- C6 (amended): with `maintainAspectRatio = true`, a source already
satisfying every set bound is returned exactly unchanged by both
`calculateDimensions` variants — no upscaling.  (With
`maintainAspectRatio = false` this fails: a set bound is assigned
directly, which can upscale; see the counterexample.) -/
theorem calculateDimensions_no_upscale_aspect (srcW srcH : ℕ) (maxW maxH : Option ℕ)
    (hsatW : ∀ w, maxW = some w → srcW ≤ w) (hsatH : ∀ h, maxH = some h → srcH ≤ h) :
    Jsquash.calculateDimensions srcW srcH maxW maxH true = ((srcW : ℤ), (srcH : ℤ))
    ∧ LibProcessor.calculateDimensions srcW srcH maxW maxH true = ((srcW : ℤ), (srcH : ℤ)) := by
  have hb := aspectBranch_within srcW srcH maxW maxH hsatW hsatH
  constructor
  · unfold Jsquash.calculateDimensions
    split
    · rfl
    · simp [hb, jsRound_natCast]
  · unfold LibProcessor.calculateDimensions
    split
    · rfl
    · simp [hb, jsRound_natCast]

/-- Witness for the no-upscaling theorem: a 100×100 source inside
200×300 bounds is returned unchanged by both variants. -/
theorem calculateDimensions_no_upscale_aspect_witness :
    Jsquash.calculateDimensions 100 100 (some 200) (some 300) true = ((100 : ℤ), (100 : ℤ))
    ∧ LibProcessor.calculateDimensions 100 100 (some 200) (some 300) true
      = ((100 : ℤ), (100 : ℤ)) := by
  have h := calculateDimensions_no_upscale_aspect 100 100 (some 200) (some 300)
    (fun w hw => by injection hw with hw; omega)
    (fun h hh => by injection hh with hh; omega)
  simpa using h

/-- C6 counterexample: with `maintainAspectRatio = false` a 100×100 source
inside a 200-wide bound is upscaled to 200×100 by the jSquash variant —
the claim's "returns the source dimensions exactly unchanged, no upscaling
ever occurs" fails for the `maintainAspectRatio = false` branch. -/
theorem calculateDimensions_upscale_counterexample :
    Jsquash.calculateDimensions 100 100 (some 200) none false = (200, 100)
    ∧ ((200 : ℤ), (100 : ℤ)) ≠ ((100 : ℤ), (100 : ℤ)) := by
  constructor
  · norm_num [Jsquash.calculateDimensions, truthy, jsRound]
  · decide

theorem aspectBranch_zeroW (srcW srcH : ℕ) (mh : Option ℕ) :
    aspectBranch srcW srcH (some 0) mh = aspectBranch srcW srcH none mh := by
  simp [aspectBranch, truthy]

theorem aspectBranch_zeroH (srcW srcH : ℕ) (mw : Option ℕ) :
    aspectBranch srcW srcH mw (some 0) = aspectBranch srcW srcH mw none := by
  simp [aspectBranch, truthy]

/-- C10 (amended): the guards of `calculateDimensions` use JS falsiness,
so with `maintainAspectRatio = true` (either variant), and in the lib
variant even with `maintainAspectRatio = false`, a zero bound behaves
exactly like an absent bound, and with both bounds zero the source
dimensions are returned unchanged for every aspect flag.  (In the jSquash
variant's `maintainAspectRatio = false` branch, however, `maxWidth ??
width` treats a present zero bound as a value and yields a zero output
dimension; see the counterexample.) -/
theorem zero_bound_treated_absent :
    (∀ (srcW srcH : ℕ) (aspect : Bool),
      Jsquash.calculateDimensions srcW srcH (some 0) (some 0) aspect = ((srcW : ℤ), (srcH : ℤ))
      ∧ LibProcessor.calculateDimensions srcW srcH (some 0) (some 0) aspect
        = ((srcW : ℤ), (srcH : ℤ)))
    ∧ (∀ (srcW srcH : ℕ) (mh : Option ℕ),
      Jsquash.calculateDimensions srcW srcH (some 0) mh true
        = Jsquash.calculateDimensions srcW srcH none mh true)
    ∧ (∀ (srcW srcH : ℕ) (mw : Option ℕ),
      Jsquash.calculateDimensions srcW srcH mw (some 0) true
        = Jsquash.calculateDimensions srcW srcH mw none true)
    ∧ (∀ (srcW srcH : ℕ) (mh : Option ℕ) (aspect : Bool),
      LibProcessor.calculateDimensions srcW srcH (some 0) mh aspect
        = LibProcessor.calculateDimensions srcW srcH none mh aspect)
    ∧ (∀ (srcW srcH : ℕ) (mw : Option ℕ) (aspect : Bool),
      LibProcessor.calculateDimensions srcW srcH mw (some 0) aspect
        = LibProcessor.calculateDimensions srcW srcH mw none aspect) := by
  refine ⟨?_, ?_, ?_, ?_, ?_⟩
  · intro srcW srcH aspect
    constructor
    · simp [Jsquash.calculateDimensions, truthy]
    · simp [LibProcessor.calculateDimensions, truthy]
  · intro srcW srcH mh
    simp [Jsquash.calculateDimensions, truthy, aspectBranch_zeroW]
  · intro srcW srcH mw
    simp [Jsquash.calculateDimensions, truthy, aspectBranch_zeroH]
  · intro srcW srcH mh aspect
    simp [LibProcessor.calculateDimensions, truthy, aspectBranch_zeroW]
  · intro srcW srcH mw aspect
    simp [LibProcessor.calculateDimensions, truthy, aspectBranch_zeroH]

/-- C10 counterexample: the jSquash variant's `maintainAspectRatio = false`
branch uses nullish coalescing, so a present zero `maxWidth` constrains
the width to 0: a 10×10 source with `maxWidth = 0`, `maxHeight = 5`
produces a zero-sized width instead of leaving the axis unconstrained. -/
theorem zero_bound_counterexample :
    Jsquash.calculateDimensions 10 10 (some 0) (some 5) false = (0, 5)
    ∧ ((0 : ℤ), (5 : ℤ)) ≠ ((10 : ℤ), (10 : ℤ)) := by
  constructor
  · norm_num [Jsquash.calculateDimensions, truthy, jsRound]
  · decide
